import Mathlib

/-
Verification of the pavo-traits capability library.

The development shallowly embeds the five source modules:

* src/convert.rs : the AsPtr / AsPtrMut traits (default-bodied pointer views
  over an AsRef borrow), the impl_as_ref / impl_as_mut / impl_as_ptr /
  impl_as_ptr_mut / impl_as_bundle derivation macros, and the blanket
  forwarding impls for references.
* src/wrap.rs : InnerCopy / InnerRefer, impl_from_into_for_enum,
  impl_from_into_for_struct, impl_struct_wrapper.
* src/slice.rs : clone_from_slice_flex and copy_from_slice_flex.
* src/num.rs : AlignDownwards, AlignUpwards, Clamped, IsInRange.

Addresses are modelled as natural numbers; a Rust reference is a record
holding the address it points at, and the raw-pointer casts of convert.rs
are address-preserving coercions.  Machine integers are modelled as Int
with an explicit range check standing for the panic on overflow or on a
remainder by zero; float values are modelled by their comparison behaviour
only (a NaN constructor plus rationals), which is exact for the clamping
and range-test code, since that code only compares.
-/

namespace PavoTraits

/-! ## Pointer and memory model -/

/-- A raw address. -/
abbrev Addr := Nat

/-- A Rust reference value: it carries the address of its referent. -/
structure Ref where
  addr : Addr
deriving DecidableEq

/-- Flat memory, one integer cell per address. -/
abbrev Mem := Addr → Int

/-- Write through a raw pointer. -/
def Mem.write (m : Mem) (p : Addr) (x : Int) : Mem :=
  fun q => if q = p then x else m q

/-- Read through a raw pointer (or through a reference). -/
def Mem.read (m : Mem) (p : Addr) : Int := m p

/-! ## convert.rs : AsPtr and AsPtrMut -/

/-- The cast of a shared reference to a const raw pointer, as in the body of
the default method AsPtr.as_ptr: `AsRef::as_ref(self) as *const T`.
The cast preserves the address. -/
def refAsConstPtr (r : Ref) : Addr := r.addr

/-- The cast of a const raw pointer to a mut raw pointer, as in the body of
the default method AsPtrMut.as_ptr_mut: `AsPtr::as_ptr(self) as *mut T`.
The cast preserves the address. -/
def constPtrAsMutPtr (p : Addr) : Addr := p

/-- Default body of AsPtr.as_ptr (convert.rs lines 11-13), parameterised by
the AsRef implementation of the receiver type: cast the reference returned
by as_ref to a const pointer. -/
def as_ptr (asRefImpl : Addr → Ref) (base : Addr) : Addr :=
  refAsConstPtr (asRefImpl base)

/-- Default body of AsPtrMut.as_ptr_mut (convert.rs lines 23-25): cast the
pointer returned by as_ptr to a mut pointer. -/
def as_ptr_mut (asRefImpl : Addr → Ref) (base : Addr) : Addr :=
  constPtrAsMutPtr (as_ptr asRefImpl base)

/-- State-passing form of the as_ptr call: the body performs no memory
effect, so the memory component is returned unchanged. -/
def as_ptr_call (asRefImpl : Addr → Ref) (base : Addr) (m : Mem) :
    Addr × Mem :=
  (as_ptr asRefImpl base, m)

/-- Layout of a wrapper struct holding its inner value in a single named
field: the byte offset of that field from the struct base. -/
structure StructLayout where
  innerOff : Nat
deriving DecidableEq

/-- Address of the inner field of a wrapper laid out by L and based at
the given address. -/
def fieldAddr (L : StructLayout) (base : Addr) : Addr := base + L.innerOff

/-- The AsRef implementation emitted by `impl_as_ref!(W, I, inner)`
(convert.rs lines 66-72): `&self.inner`, the reference to the inner field. -/
def as_ref_inner_field (L : StructLayout) (base : Addr) : Ref :=
  ⟨fieldAddr L base⟩

/-- The InnerRefer.inner implementation emitted by
`impl_inner_refer!(W, I)` (wrap.rs lines 189-199): `&self.inner`. -/
def inner_refer_addr (L : StructLayout) (base : Addr) : Addr :=
  fieldAddr L base

/-- The forwarded AsRef of a reference value (the std blanket impl used by
the default as_ptr body once `impl AsPtr of U for amp T` is in scope):
dereference and run the AsRef of the referent type. -/
def as_ref_borrow (asRefT : Addr → Ref) (r : Ref) : Ref :=
  asRefT r.addr

/-- as_ptr on a reference value, via the blanket
`impl AsPtr of U for amp T` (convert.rs lines 227-233): the empty impl
keeps the default body, which runs over the forwarded AsRef. -/
def as_ptr_borrow (asRefT : Addr → Ref) (r : Ref) : Addr :=
  refAsConstPtr (as_ref_borrow asRefT r)

/-- as_ptr_mut on a reference value, via the blanket
`impl AsPtrMut of U for amp T` (convert.rs lines 236-242). -/
def as_ptr_mut_borrow (asRefT : Addr → Ref) (r : Ref) : Addr :=
  constPtrAsMutPtr (as_ptr_borrow asRefT r)

/-! ## wrap.rs : struct wrappers and From / Into -/

/-- A wrapper struct holding exactly one field named inner, the shape the
impl_from_into_for_struct and impl_struct_wrapper derivations require. -/
structure Wrapped (I : Type _) where
  inner : I
deriving DecidableEq

/-- From of the inner value, emitted by impl_from_into_for_struct
(wrap.rs lines 127-131): `Self { inner: val }`. -/
def from_inner {I : Type _} (v : I) : Wrapped I := ⟨v⟩

/-- Into the inner value, emitted by impl_from_into_for_struct
(wrap.rs lines 133-137): `self.inner`. -/
def into_inner {I : Type _} (w : Wrapped I) : I := w.inner

/-! ## wrap.rs : enum wrappers and bit-reinterpretation

The doc-tested pair of tag types from wrap.rs lines 29-58: the foreign
enum MODE_E and the wrapper enum Mode, both repr(u32) with three variants
at discriminants 0, 1, 2.  The transmute of impl_from_into_for_enum is
modelled as reinterpretation of the discriminant: it is defined exactly on
the bit patterns that are legal for the target type. -/

/-- The foreign tag type, three variants at discriminants 0, 1, 2. -/
inductive MODE_E where
  | MODE_E_A
  | MODE_E_B
  | MODE_E_C
deriving DecidableEq

/-- The wrapper tag type, three variants at discriminants 0, 1, 2. -/
inductive Mode where
  | A
  | B
  | C
deriving DecidableEq

/-- Discriminant encoding of MODE_E (repr u32, default ordinals). -/
def MODE_E.discr : MODE_E → Nat
  | .MODE_E_A => 0
  | .MODE_E_B => 1
  | .MODE_E_C => 2

/-- Discriminant encoding of Mode (repr u32, default ordinals). -/
def Mode.discr : Mode → Nat
  | .A => 0
  | .B => 1
  | .C => 2

/-- The Mode variant carried by a discriminant bit pattern, when legal. -/
def Mode.ofDiscr : Nat → Option Mode
  | 0 => some .A
  | 1 => some .B
  | 2 => some .C
  | _ => none

/-- The MODE_E variant carried by a discriminant bit pattern, when legal. -/
def MODE_E.ofDiscr : Nat → Option MODE_E
  | 0 => some .MODE_E_A
  | 1 => some .MODE_E_B
  | 2 => some .MODE_E_C
  | _ => none

/-- From of the inner enum, emitted by impl_from_into_for_enum
(wrap.rs lines 63-67): transmute of the bit pattern, defined exactly when
the pattern is a legal Mode discriminant. -/
def mode_from (v : MODE_E) : Option Mode :=
  Mode.ofDiscr v.discr

/-- Into the inner enum, emitted by impl_from_into_for_enum
(wrap.rs lines 69-73): transmute of the bit pattern, defined exactly when
the pattern is a legal MODE_E discriminant. -/
def mode_into (m : Mode) : Option MODE_E :=
  MODE_E.ofDiscr m.discr

/-! ## The derivation macros as generators of trait impls

Each macro arm of convert.rs and wrap.rs is a function from its arguments
to the list of trait impls it expands to.  A Cap value names one emitted
impl together with its wrapper type, target type and, where the arm uses
one, the field selector. -/

/-- One trait impl emitted by a derivation invocation. -/
inductive Cap where
  | asRefId (w : String)
  | asRefCast (w t : String)
  | asRefField (w t f : String)
  | asMutId (w : String)
  | asMutCast (w t : String)
  | asMutField (w t f : String)
  | asPtrTo (w t : String)
  | asPtrMutTo (w t : String)
  | fromIntoStruct (w t : String)
  | fromIntoEnum (w t : String)
  | innerCopyTo (w t : String)
  | innerReferTo (w t : String)
deriving DecidableEq

/-- Expansion of the one-argument arm of impl_as_ref (convert.rs 50-56). -/
def impl_as_ref_one (w : String) : List Cap := [Cap.asRefId w]

/-- Expansion of the two-argument arm of impl_as_ref (convert.rs 58-64). -/
def impl_as_ref_two (w t : String) : List Cap := [Cap.asRefCast w t]

/-- Expansion of the three-argument arm of impl_as_ref
(convert.rs 66-72): AsRef returning the named field. -/
def impl_as_ref_three (w t f : String) : List Cap := [Cap.asRefField w t f]

/-- Expansion of the one-argument arm of impl_as_mut (convert.rs 97-103). -/
def impl_as_mut_one (w : String) : List Cap := [Cap.asMutId w]

/-- Expansion of the two-argument arm of impl_as_mut (convert.rs 105-111):
AsMut by transmute of the whole wrapper. -/
def impl_as_mut_two (w t : String) : List Cap := [Cap.asMutCast w t]

/-- Expansion of the three-argument arm of impl_as_mut
(convert.rs 113-119): AsMut returning the named field. -/
def impl_as_mut_three (w t f : String) : List Cap := [Cap.asMutField w t f]

/-- Expansion of the one-argument arm of impl_as_ptr (convert.rs 152-154). -/
def impl_as_ptr_one (w : String) : List Cap := [Cap.asPtrTo w w]

/-- Expansion of the two-argument arm of impl_as_ptr (convert.rs 156-158). -/
def impl_as_ptr_two (w t : String) : List Cap := [Cap.asPtrTo w t]

/-- Expansion of the three-argument arm of impl_as_ptr (convert.rs
160-162): it recurses to the two-argument arm, ignoring the field. -/
def impl_as_ptr_three (w t _f : String) : List Cap := impl_as_ptr_two w t

/-- Expansion of the one-argument arm of impl_as_ptr_mut
(convert.rs 188-190). -/
def impl_as_ptr_mut_one (w : String) : List Cap := [Cap.asPtrMutTo w w]

/-- Expansion of the two-argument arm of impl_as_ptr_mut
(convert.rs 192-194). -/
def impl_as_ptr_mut_two (w t : String) : List Cap := [Cap.asPtrMutTo w t]

/-- Expansion of the three-argument arm of impl_as_ptr_mut (convert.rs
196-198): the arm invokes `impl_as_mut!(Type, Target)`, the two-argument
transmuting AsMut derivation, not an AsPtrMut impl. -/
def impl_as_ptr_mut_three (w t _f : String) : List Cap := impl_as_mut_two w t

/-- Expansion of impl_from_into_for_struct at the impl-list level. -/
def impl_from_into_for_struct_caps (w t : String) : List Cap :=
  [Cap.fromIntoStruct w t]

/-- Expansion of impl_from_into_for_enum at the impl-list level. -/
def impl_from_into_for_enum_caps (w t : String) : List Cap :=
  [Cap.fromIntoEnum w t]

/-- Expansion of impl_inner_copy at the impl-list level (wrap.rs 160-168). -/
def impl_inner_copy_caps (w t : String) : List Cap := [Cap.innerCopyTo w t]

/-- Expansion of impl_inner_refer at the impl-list level
(wrap.rs 188-200). -/
def impl_inner_refer_caps (w t : String) : List Cap := [Cap.innerReferTo w t]

/-- Expansion of the two-argument impl_as_bundle (convert.rs 203-211):
ref, mut, ptr and ptr_mut for a wrapper and target. -/
def impl_as_bundle_two (w t : String) : List Cap :=
  impl_as_ref_two w t ++ impl_as_mut_two w t ++
    impl_as_ptr_two w t ++ impl_as_ptr_mut_two w t

/-- Expansion of impl_struct_wrapper (wrap.rs 231-239): AsRef to the field
named inner, AsPtr, AsPtrMut, From and Into, and InnerRefer. -/
def impl_struct_wrapper (w t : String) : List Cap :=
  impl_as_ref_three w t "inner" ++ impl_as_ptr_two w t ++
    impl_as_ptr_mut_two w t ++ impl_from_into_for_struct_caps w t ++
      impl_inner_refer_caps w t

/-! ## slice.rs : length-tolerant bulk copies

Buffers are Lean lists.  clone_from_slice_flex is the index loop of
slice.rs lines 12-17 rendered as a fold of in-place updates over the index
range; copy_from_slice_flex is the call
`ptr::copy_nonoverlapping(src.as_ptr(), self.as_mut_ptr(), len)` of lines
28-33, rendered as an element-count-bounded block copy. -/

/-- The loop `for i in 0..len do self[i].clone_from(src[i])` with
`len = min(self.len(), src.len())` (slice.rs lines 12-17).  The getD
default is never consulted: every index visited is below the length of
both lists. -/
def clone_from_slice_flex {α : Type _} [Inhabited α]
    (dst src : List α) : List α :=
  (List.range (min dst.length src.length)).foldl
    (fun d i => d.set i (src.getD i default)) dst

/-- Block copy of n leading elements from src into dst, the list-level
semantics of `ptr::copy_nonoverlapping(src, dst, n)` under the
non-overlap precondition: the n leading cells of dst take the n leading
values of src, one cell after another. -/
def memcpy {α : Type _} : List α → List α → Nat → List α
  | dst, _, 0 => dst
  | dst, [], _ => dst
  | [], _, _ => []
  | _ :: dtl, s :: stl, Nat.succ n => s :: memcpy dtl stl n

/-- The body of copy_from_slice_flex (slice.rs lines 28-33): block-copy
`min(self.len(), src.len())` elements from the start of src. -/
def copy_from_slice_flex {α : Type _} (dst src : List α) : List α :=
  memcpy dst src (min dst.length src.length)

/-! ## num.rs : alignment, clamping, range tests

A machine integer type is a closed interval of Int; an arithmetic step
whose result leaves the interval is a panic of the checked Rust
arithmetic, modelled as none, as is the remainder by zero.  Int.tmod is
truncated remainder, the semantics of the Rust % operator on integers. -/

/-- A machine integer type: the closed interval of values it represents. -/
structure IntTy where
  lo : Int
  hi : Int
deriving DecidableEq

/-- The u8 machine type. -/
def IntTy.u8 : IntTy := ⟨0, 255⟩

/-- The i8 machine type. -/
def IntTy.i8 : IntTy := ⟨-128, 127⟩

/-- Range check of one arithmetic step: none models the overflow panic. -/
def IntTy.chk (t : IntTy) (x : Int) : Option Int :=
  if t.lo ≤ x ∧ x ≤ t.hi then some x else none

/-- Body of align_downwards (num.rs lines 34-38): `self - (self % align)`,
with none for the remainder-by-zero panic and for an out-of-range step. -/
def align_downwards (t : IntTy) (x a : Int) : Option Int :=
  if a = 0 then none else t.chk (x - Int.tmod x a)

/-- Body of align_upwards (num.rs lines 44-51):
`if self % align != 0 then self + align - (self % align) else self`,
with none for the remainder-by-zero panic and for an out-of-range step in
the addition or the subtraction. -/
def align_upwards (t : IntTy) (x a : Int) : Option Int :=
  if a = 0 then none
  else if Int.tmod x a ≠ 0 then
    (t.chk (x + a)).bind fun s => t.chk (s - Int.tmod x a)
  else some x

/-- Body of clamped (num.rs lines 97-107) over the integer order:
return min below min, max above max, the value itself otherwise. -/
def clamped (x lo hi : Int) : Int :=
  if x < lo then lo else if hi < x then hi else x

/-- Body of is_in_range (num.rs lines 184-187) over the integer order:
`self >= min && self <= max`. -/
def is_in_range (x lo hi : Int) : Bool :=
  decide (lo ≤ x) && decide (x ≤ hi)

/-- A float value, modelled by its comparison behaviour: NaN, or a finite
value on the rational line.  clamped and is_in_range only compare, so
this model is exact for them. -/
inductive Fp where
  | nan
  | fin (q : Rat)
deriving DecidableEq

/-- The IEEE lt comparison: false whenever either side is NaN. -/
def Fp.flt : Fp → Fp → Bool
  | .fin a, .fin b => decide (a < b)
  | _, _ => false

/-- The IEEE le comparison: false whenever either side is NaN. -/
def Fp.fle : Fp → Fp → Bool
  | .fin a, .fin b => decide (a ≤ b)
  | _, _ => false

/-- Body of clamped (num.rs lines 97-107) at a float type: the two tests
`self < min` and `self > max` use the IEEE comparisons. -/
def clampedF (x lo hi : Fp) : Fp :=
  if x.flt lo then lo else if hi.flt x then hi else x

/-- Body of is_in_range (num.rs lines 184-187) at a float type. -/
def is_in_rangeF (x lo hi : Fp) : Bool :=
  lo.fle x && x.fle hi

/-! ## Supporting lemmas for the bulk copies -/

/-- The index loop of clone_from_slice_flex, run up to any bound n within
both lengths, replaces the n leading cells of dst by the n leading values
of src and keeps the tail. -/
theorem foldl_set_eq_take_append_drop {α : Type _} [Inhabited α]
    (src : List α) :
    ∀ (n : Nat) (dst : List α), n ≤ dst.length → n ≤ src.length →
      (List.range n).foldl (fun d i => d.set i (src.getD i default)) dst
        = src.take n ++ dst.drop n := by
  intro n
  induction n with
  | zero => intro dst _ _; simp
  | succ n ih =>
    intro dst hd hs
    have hdn : n < dst.length := Nat.lt_of_succ_le hd
    have hsn : n < src.length := Nat.lt_of_succ_le hs
    rw [List.range_succ, List.foldl_append,
      ih dst (Nat.le_of_succ_le hd) (Nat.le_of_succ_le hs)]
    simp only [List.foldl_cons, List.foldl_nil]
    rw [List.set_append, List.length_take]
    have hnot : ¬ n < min n src.length := by omega
    have h0 : n - min n src.length = 0 := by omega
    rw [if_neg hnot, h0, List.drop_eq_getElem_cons hdn, List.take_succ,
      List.getElem?_eq_getElem hsn, List.getD_eq_getElem?_getD,
      List.getElem?_eq_getElem hsn]
    simp only [Option.getD_some, Option.toList_some, List.set_cons_zero,
      List.append_assoc, List.singleton_append]

/-- The block copy of n elements, for n within both lengths, replaces the
n leading cells of dst by the n leading values of src and keeps the
tail. -/
theorem memcpy_eq_take_append_drop {α : Type _} :
    ∀ (dst src : List α) (n : Nat), n ≤ dst.length → n ≤ src.length →
      memcpy dst src n = src.take n ++ dst.drop n := by
  intro dst
  induction dst with
  | nil =>
    intro src n hd _
    have hn : n = 0 := Nat.le_zero.mp hd
    subst hn
    simp [memcpy]
  | cons d dtl ih =>
    intro src n hd hs
    cases n with
    | zero => simp [memcpy]
    | succ n =>
      cases src with
      | nil => simp at hs
      | cons s stl =>
        simp only [memcpy, List.take_succ_cons, List.drop_succ_cons,
          List.cons_append]
        rw [ih stl n (Nat.le_of_succ_le_succ hd)
          (Nat.le_of_succ_le_succ hs)]

/-- Closed form of clone_from_slice_flex: the common-length leading part
of src followed by the untouched tail of dst. -/
theorem clone_from_slice_flex_eq {α : Type _} [Inhabited α]
    (dst src : List α) :
    clone_from_slice_flex dst src
      = src.take (min dst.length src.length)
          ++ dst.drop (min dst.length src.length) :=
  foldl_set_eq_take_append_drop src (min dst.length src.length) dst
    (Nat.min_le_left _ _) (Nat.min_le_right _ _)

/-- Closed form of copy_from_slice_flex: the common-length leading part
of src followed by the untouched tail of dst. -/
theorem copy_from_slice_flex_eq {α : Type _} (dst src : List α) :
    copy_from_slice_flex dst src
      = src.take (min dst.length src.length)
          ++ dst.drop (min dst.length src.length) :=
  memcpy_eq_take_append_drop dst src (min dst.length src.length)
    (Nat.min_le_left _ _) (Nat.min_le_right _ _)

/-! ## Claim theorems -/

/-- C1: for a wrapper derived with impl_struct_wrapper, the raw address
returned by as_ptr equals the address of the reference returned by the
borrow-access operation as_ref, which is the address of the inner field;
and the call leaves the memory state unchanged. -/
theorem as_ptr_equals_inner_field_addr (L : StructLayout) (base : Addr)
    (m : Mem) :
    (as_ptr_call (as_ref_inner_field L) base m).1
        = refAsConstPtr (as_ref_inner_field L base)
    ∧ refAsConstPtr (as_ref_inner_field L base) = fieldAddr L base
    ∧ (as_ptr_call (as_ref_inner_field L) base m).2 = m :=
  ⟨rfl, rfl, rfl⟩

/-- C2: for a wrapper derived with impl_from_into_for_struct, converting
an inner value into the wrapper and back yields the inner value, and
converting a wrapper to inner and back yields the identical wrapper. -/
theorem struct_from_into_round_trip {I : Type _} (v : I) (w : Wrapped I) :
    into_inner (from_inner v) = v ∧ from_inner (into_inner w) = w :=
  ⟨rfl, rfl⟩

/-- C3: for the three-variant tag pair with identical encoding, the
bit-reinterpretation conversion round-trips every legal discriminant of
the inner type, preserves discriminants, and sends each wrapper variant to
the inner variant of the expected ordinal 0, 1, 2. -/
theorem enum_from_into_round_trip :
    (∀ v : MODE_E, (mode_from v).bind mode_into = some v)
    ∧ (∀ v : MODE_E, (mode_from v).map Mode.discr = some v.discr)
    ∧ mode_into Mode.A = some MODE_E.MODE_E_A
    ∧ mode_into Mode.B = some MODE_E.MODE_E_B
    ∧ mode_into Mode.C = some MODE_E.MODE_E_C
    ∧ MODE_E.discr MODE_E.MODE_E_A = 0
    ∧ MODE_E.discr MODE_E.MODE_E_B = 1
    ∧ MODE_E.discr MODE_E.MODE_E_C = 2 :=
  ⟨fun v => by cases v <;> rfl, fun v => by cases v <;> rfl,
    rfl, rfl, rfl, rfl, rfl, rfl⟩

/-- C4: the writable address returned by as_ptr_mut equals the read-only
address returned by as_ptr, and a write through it is observed by a
subsequent read through the InnerRefer borrow or through as_ptr. -/
theorem as_ptr_mut_write_through (L : StructLayout) (base : Addr)
    (m : Mem) (x : Int) :
    (∀ (f : Addr → Ref) (b : Addr), as_ptr_mut f b = as_ptr f b)
    ∧ Mem.read (Mem.write m (as_ptr_mut (as_ref_inner_field L) base) x)
        (inner_refer_addr L base) = x
    ∧ Mem.read (Mem.write m (as_ptr_mut (as_ref_inner_field L) base) x)
        (as_ptr (as_ref_inner_field L) base) = x := by
  refine ⟨fun f b => rfl, ?_, ?_⟩ <;>
    simp [Mem.read, Mem.write, as_ptr_mut, as_ptr, constPtrAsMutPtr,
      refAsConstPtr, as_ref_inner_field, inner_refer_addr]

/-- C6: the blanket impls for references forward the pointer views: on a
borrow of T, as_ptr and as_ptr_mut yield the same addresses as on the
borrowed T value itself. -/
theorem borrow_forwarding_same_addr (asRefT : Addr → Ref) (r : Ref) :
    as_ptr_borrow asRefT r = as_ptr asRefT r.addr
    ∧ as_ptr_mut_borrow asRefT r = as_ptr_mut asRefT r.addr :=
  ⟨rfl, rfl⟩

/-- C7: evaluated at a concrete invocation, the three-argument arm of
impl_as_ptr_mut emits only the transmuting AsMut impl and no AsPtrMut
impl, while the two-argument arm, the bundle derivation and the
struct-wrapper derivation do emit the AsPtrMut impl. -/
theorem impl_as_ptr_mut_three_args_emits_as_mut :
    impl_as_ptr_mut_three "Foo" "Bar" "bar" = [Cap.asMutCast "Foo" "Bar"]
    ∧ Cap.asPtrMutTo "Foo" "Bar" ∉ impl_as_ptr_mut_three "Foo" "Bar" "bar"
    ∧ Cap.asPtrMutTo "Foo" "Bar" ∈ impl_as_ptr_mut_two "Foo" "Bar"
    ∧ Cap.asPtrMutTo "Foo" "Bar" ∈ impl_as_bundle_two "Foo" "Bar"
    ∧ Cap.asPtrMutTo "Foo" "Bar" ∈ impl_struct_wrapper "Foo" "Bar" := by
  decide

/-- C8: for trivially duplicable elements the duplicating copy and the
block copy produce identical destination contents. -/
theorem clone_flex_equals_copy_flex {α : Type _} [Inhabited α]
    (dst src : List α) :
    clone_from_slice_flex dst src = copy_from_slice_flex dst src := by
  rw [clone_from_slice_flex_eq, copy_from_slice_flex_eq]

/-- C5: both length-tolerant copies overwrite exactly the common-length
leading part of the destination with the leading part of the source and
keep every later destination cell; the length is preserved, the source is
never consulted past the common-length leading part, an empty source or
an empty destination is a no-op, and the operations are total, so no
length mismatch is reported as an error. -/
theorem slice_flex_copies_common_len {α : Type _} [Inhabited α]
    (dst src : List α) :
    clone_from_slice_flex dst src
        = src.take (min dst.length src.length)
            ++ dst.drop (min dst.length src.length)
    ∧ copy_from_slice_flex dst src
        = src.take (min dst.length src.length)
            ++ dst.drop (min dst.length src.length)
    ∧ (clone_from_slice_flex dst src).length = dst.length
    ∧ (copy_from_slice_flex dst src).length = dst.length
    ∧ (∀ i : Nat, (clone_from_slice_flex dst src).getD i default
          = if i < min dst.length src.length then src.getD i default
            else dst.getD i default)
    ∧ clone_from_slice_flex dst src
        = clone_from_slice_flex dst (src.take (min dst.length src.length))
    ∧ clone_from_slice_flex dst ([] : List α) = dst
    ∧ copy_from_slice_flex dst ([] : List α) = dst
    ∧ clone_from_slice_flex ([] : List α) src = []
    ∧ copy_from_slice_flex ([] : List α) src = [] := by
  refine ⟨clone_from_slice_flex_eq dst src, copy_from_slice_flex_eq dst src,
    ?_, ?_, ?_, ?_, ?_, ?_, ?_, ?_⟩
  · rw [clone_from_slice_flex_eq]
    simp only [List.length_append, List.length_take, List.length_drop]
    omega
  · rw [copy_from_slice_flex_eq]
    simp only [List.length_append, List.length_take, List.length_drop]
    omega
  · intro i
    rw [clone_from_slice_flex_eq, List.getD_eq_getElem?_getD,
      List.getElem?_append, List.length_take]
    by_cases hi : i < min dst.length src.length
    · have hcond : i < min (min dst.length src.length) src.length := by
        omega
      rw [if_pos hcond, if_pos hi, List.getElem?_take, if_pos hi,
        List.getD_eq_getElem?_getD]
    · have hcond : ¬ i < min (min dst.length src.length) src.length := by
        omega
      have hadd : min dst.length src.length
          + (i - min (min dst.length src.length) src.length) = i := by
        omega
      rw [if_neg hcond, if_neg hi, List.getElem?_drop, hadd,
        List.getD_eq_getElem?_getD]
  · rw [clone_from_slice_flex_eq dst src,
      clone_from_slice_flex_eq dst (src.take (min dst.length src.length))]
    have hl : (src.take (min dst.length src.length)).length
        = min dst.length src.length := by
      rw [List.length_take]; omega
    rw [hl]
    have hm : min dst.length (min dst.length src.length)
        = min dst.length src.length := by omega
    rw [hm, List.take_take]
    have hmm : min dst.length src.length ⊓ min dst.length src.length
        = min dst.length src.length := by omega
    rw [hmm]
  · rw [clone_from_slice_flex_eq]; simp
  · rw [copy_from_slice_flex_eq]; simp
  · rw [clone_from_slice_flex_eq]; simp
  · rw [copy_from_slice_flex_eq]; simp

/-- C9 counterexample: at the signed inputs x = -5, align = 3 the code
returns -3, which is not at most -5, so the returned value is not the
largest multiple of the alignment at most x. -/
theorem align_downwards_negative_counterexample :
    align_downwards IntTy.i8 (-5) 3 = some (-3)
    ∧ ¬ ((-3 : Int) ≤ -5) := by
  decide

/-- C9 (amended): aligning by zero aborts with a remainder-by-zero panic
for every input; align_upwards can overflow, e.g. at 255 by 2 in u8; and
under the preconditions of a positive align, a nonnegative value and no
overflow, align_downwards returns the largest multiple of align at most
x and align_upwards the smallest multiple of align at least x.  For a
negative x of a signed type the truncated remainder makes both
operations round toward zero instead. -/
theorem align_props (t : IntTy) (x a r : Int) :
    align_downwards t x 0 = none
    ∧ align_upwards t x 0 = none
    ∧ align_upwards IntTy.u8 255 2 = none
    ∧ (0 ≤ x → 0 < a → align_downwards t x a = some r →
        a ∣ r ∧ r ≤ x ∧ ∀ m : Int, a ∣ m → m ≤ x → m ≤ r)
    ∧ (0 ≤ x → 0 < a → align_upwards t x a = some r →
        a ∣ r ∧ x ≤ r ∧ ∀ m : Int, a ∣ m → x ≤ m → r ≤ m) := by
  refine ⟨by simp [align_downwards], by simp [align_upwards],
    by decide, ?_, ?_⟩
  · intro hx ha hr
    have hane : a ≠ 0 := ne_of_gt ha
    have hx2 := Int.tmod_add_tdiv x a
    have htm : 0 ≤ x.tmod a := Int.tmod_nonneg a hx
    have htl : x.tmod a < a := Int.tmod_lt_of_pos x ha
    unfold align_downwards IntTy.chk at hr
    rw [if_neg hane] at hr
    split_ifs at hr with hrange
    · have hreq : x - x.tmod a = r := Option.some.inj hr
      have hrad : r = a * x.tdiv a := by linarith
      refine ⟨⟨x.tdiv a, hrad⟩, by linarith, ?_⟩
      intro m hm hmx
      obtain ⟨k, hk⟩ := hm
      have hklt : a * k < a * (x.tdiv a + 1) := by
        rw [mul_add, mul_one]; linarith
      have hk2 : k < x.tdiv a + 1 :=
        lt_of_mul_lt_mul_left hklt (le_of_lt ha)
      have hk3 : k ≤ x.tdiv a := by omega
      calc m = a * k := hk
        _ ≤ a * x.tdiv a := mul_le_mul_of_nonneg_left hk3 (le_of_lt ha)
        _ = r := hrad.symm
  · intro hx ha hr
    have hane : a ≠ 0 := ne_of_gt ha
    have hx2 := Int.tmod_add_tdiv x a
    have htm : 0 ≤ x.tmod a := Int.tmod_nonneg a hx
    have htl : x.tmod a < a := Int.tmod_lt_of_pos x ha
    unfold align_upwards at hr
    rw [if_neg hane] at hr
    by_cases hm0 : Int.tmod x a = 0
    · rw [if_neg (not_not_intro hm0)] at hr
      have hrx : x = r := Option.some.inj hr
      subst hrx
      exact ⟨⟨x.tdiv a, by linarith⟩, le_refl x, fun m _ h => h⟩
    · rw [if_pos hm0] at hr
      have htpos : 0 < x.tmod a := lt_of_le_of_ne htm (Ne.symm hm0)
      cases hcase : IntTy.chk t (x + a) with
      | none => rw [hcase] at hr; simp at hr
      | some s =>
        rw [hcase, Option.some_bind] at hr
        have hs : s = x + a := by
          unfold IntTy.chk at hcase
          split_ifs at hcase with h1
          exact (Option.some.inj hcase).symm
        subst hs
        unfold IntTy.chk at hr
        split_ifs at hr with h2
        · have hreq : x + a - x.tmod a = r := Option.some.inj hr
          have hrad : r = a * (x.tdiv a + 1) := by
            rw [mul_add, mul_one]; linarith
          have hrad2 : r = a * x.tdiv a + a := by
            rw [hrad, mul_add, mul_one]
          refine ⟨⟨x.tdiv a + 1, hrad⟩, by linarith, ?_⟩
          intro m hm hxm
          obtain ⟨k, hk⟩ := hm
          by_contra hcon
          push_neg at hcon
          have hklt : a * k < a * x.tdiv a + a := by linarith
          have hk2 : k < x.tdiv a + 1 := by
            refine lt_of_mul_lt_mul_left ?_ (le_of_lt ha)
            rw [mul_add, mul_one]; exact hklt
          have hk3 : k ≤ x.tdiv a := by omega
          have hmle : m ≤ a * x.tdiv a := by
            rw [hk]
            exact mul_le_mul_of_nonneg_left hk3 (le_of_lt ha)
          linarith

/-- Witness for align_props: in the u8 type, aligning 65 down by 64
yields 64, the largest multiple of 64 at most 65, and aligning 65 up by
2 yields 66, the smallest multiple of 2 at least 65. -/
theorem align_props_witness :
    ((64 : Int) ∣ 64 ∧ (64 : Int) ≤ 65
      ∧ ∀ m : Int, 64 ∣ m → m ≤ 65 → m ≤ 64)
    ∧ ((2 : Int) ∣ 66 ∧ (65 : Int) ≤ 66
      ∧ ∀ m : Int, 2 ∣ m → 65 ≤ m → 66 ≤ m) :=
  ⟨(align_props IntTy.u8 65 64 64).2.2.2.1
      (by decide) (by decide) (by decide),
    (align_props IntTy.u8 65 2 66).2.2.2.2
      (by decide) (by decide) (by decide)⟩

/-- C10 counterexample: with the ordered float bounds 0 and 1, clamping
the float value NaN returns NaN, and the result fails the containment
test is_in_range. -/
theorem clamped_nan_counterexample :
    Fp.fle (Fp.fin 0) (Fp.fin 1) = true
    ∧ clampedF Fp.nan (Fp.fin 0) (Fp.fin 1) = Fp.nan
    ∧ is_in_rangeF (clampedF Fp.nan (Fp.fin 0) (Fp.fin 1))
        (Fp.fin 0) (Fp.fin 1) = false := by
  decide

/-- C10 (amended): for every integer value and ordered bounds, clamped
returns min below min, max above max and the value otherwise, and the
result passes is_in_range; for floats the same containment holds for
every value other than NaN, while clamping NaN returns NaN, which no
range contains.  With unordered bounds the operation still returns min
for a value below min, without validating the bounds. -/
theorem clamped_in_range_props :
    (∀ x lo hi : Int, lo ≤ hi →
        (x < lo → clamped x lo hi = lo)
        ∧ (hi < x → clamped x lo hi = hi)
        ∧ (lo ≤ x → x ≤ hi → clamped x lo hi = x)
        ∧ is_in_range (clamped x lo hi) lo hi = true)
    ∧ (∀ x lo hi : Fp, x ≠ Fp.nan → Fp.fle lo hi = true →
        is_in_rangeF (clampedF x lo hi) lo hi = true)
    ∧ (∀ x lo hi : Int, x < lo → clamped x lo hi = lo) := by
  refine ⟨?_, ?_, ?_⟩
  · intro x lo hi hlh
    unfold clamped
    refine ⟨fun h => by rw [if_pos h], fun h => ?_, fun h1 h2 => ?_, ?_⟩
    · rw [if_neg (by omega), if_pos h]
    · rw [if_neg (by omega), if_neg (by omega)]
    · unfold is_in_range
      split_ifs with h1 h2 <;>
        simp only [Bool.and_eq_true, decide_eq_true_eq] <;>
          constructor <;> omega
  · intro x lo hi hxn hlh
    cases x with
    | nan => exact absurd rfl hxn
    | fin q =>
      cases lo with
      | nan => simp [Fp.fle] at hlh
      | fin l =>
        cases hi with
        | nan => simp [Fp.fle] at hlh
        | fin h =>
          have hlh2 : l ≤ h := by simpa [Fp.fle] using hlh
          unfold clampedF
          by_cases h1 : Fp.flt (Fp.fin q) (Fp.fin l) = true
          · rw [if_pos h1]
            simp [is_in_rangeF, Fp.fle, hlh2]
          · rw [if_neg h1]
            have hlq : l ≤ q := by
              have := (by simpa [Fp.flt] using h1 : ¬ q < l)
              exact le_of_not_lt this
            by_cases h2 : Fp.flt (Fp.fin h) (Fp.fin q) = true
            · rw [if_pos h2]
              simp [is_in_rangeF, Fp.fle, hlh2]
            · rw [if_neg h2]
              have hqh : q ≤ h := by
                have := (by simpa [Fp.flt] using h2 : ¬ h < q)
                exact le_of_not_lt this
              simp [is_in_rangeF, Fp.fle, hlq, hqh]
  · intro x lo hi h
    unfold clamped
    rw [if_pos h]

/-- Witness for clamped_in_range_props: 8 clamped into the integer range
6 to 7 lies in the range, the float 8 clamped into 6 to 7 lies in the
range, and 5 clamped below the lower bound 6 returns 6. -/
theorem clamped_props_witness :
    is_in_range (clamped 8 6 7) 6 7 = true
    ∧ is_in_rangeF (clampedF (Fp.fin 8) (Fp.fin 6) (Fp.fin 7))
        (Fp.fin 6) (Fp.fin 7) = true
    ∧ clamped 5 6 9 = 6 :=
  ⟨(clamped_in_range_props.1 8 6 7 (by decide)).2.2.2,
    clamped_in_range_props.2.1 (Fp.fin 8) (Fp.fin 6) (Fp.fin 7)
      (by decide) (by decide),
    clamped_in_range_props.2.2 5 6 9 (by decide)⟩

end PavoTraits
